import Mathlib

/-!
Verification of the cumbiaGEN training pipeline (`Code/train.py`,
`Code/generate.py`).

Tensors are embedded as nested lists: an integer token batch is a
`List (List ℤ)` (batch × positions) and a prediction tensor is a
`List (List (List ℝ))` (batch × positions × vocabulary logits).
Floating-point numbers are modelled as real numbers; an operation whose
floating-point result is non-finite (NaN or ±Inf) is modelled as `none`
in an `Option ℝ` result.
-/

namespace CumbiaGen

/-- Per-position sparse categorical cross-entropy from logits, as computed
by `keras.losses.SparseCategoricalCrossentropy(from_logits=True)`:
`-log softmax(logits)[label] = log (Σⱼ exp logitsⱼ) - logits[label]`. -/
noncomputable def sparseCE (logits : List ℝ) (label : ℤ) : ℝ :=
  Real.log ((logits.map Real.exp).sum) - logits.getD label.toNat 0

/-- The unreduced loss tensor `sparse_categorical_crossentropy(real, pred)`
of `train.py`: one cross-entropy value per batch element and position. -/
noncomputable def sparse_categorical_crossentropy
    (real : List (List ℤ)) (pred : List (List (List ℝ))) : List (List ℝ) :=
  List.zipWith (fun rrow prow =>
    List.zipWith (fun t logits => sparseCE logits t) rrow prow) real pred

/-- The mask of `_calculate_loss`: `logical_not (equal (real, 0))` cast to
the loss dtype, i.e. `1.0` at non-padding positions and `0.0` where the
true token is the padding id `0`. -/
def lossMask (real : List (List ℤ)) : List (List ℝ) :=
  real.map (fun row => row.map (fun t => if t = 0 then (0 : ℝ) else 1))

/-- Sum of all entries of a rank-2 tensor (`tf.reduce_sum`). -/
def sum2 (x : List (List ℝ)) : ℝ := (x.map List.sum).sum

/-- `_calculate_loss` of `train.py`: per-position cross-entropy, multiplied
elementwise by the padding mask, summed, and divided by the mask sum
(the number of non-padded elements).  Floating-point division by a zero
mask sum produces the non-finite value NaN (the numerator is then also
zero), modelled as `none`. -/
noncomputable def calculate_loss
    (real : List (List ℤ)) (pred : List (List (List ℝ))) : Option ℝ :=
  let loss0 := sparse_categorical_crossentropy real pred
  let mask := lossMask real
  let lossMasked := List.zipWith (List.zipWith (· * ·)) loss0 mask
  let total_loss := sum2 lossMasked
  let number_of_non_padded_elements := sum2 mask
  if number_of_non_padded_elements = 0 then none
  else some (total_loss / number_of_non_padded_elements)

/-- The number of positions of the target batch whose token differs from
the padding id `0`. -/
def numNonPadded (real : List (List ℤ)) : ℕ :=
  (real.map (fun row => row.countP (fun t => decide (t ≠ 0)))).sum

/-- Masked average loss as the specification words it: the sum of the
per-position softmax cross-entropy losses taken only over positions whose
true token differs from the padding id `0`, divided by the count of those
non-padding positions. -/
noncomputable def maskedLossSpec
    (real : List (List ℤ)) (pred : List (List (List ℝ))) : ℝ :=
  (List.zipWith (fun rrow prow =>
      ((((rrow.zip prow).filter (fun q => decide (q.1 ≠ 0))).map
        (fun q => sparseCE q.2 q.1)).sum)) real pred).sum
    / (numNonPadded real : ℝ)

/-- The mask sum computed by `_calculate_loss` equals the non-padding
position count, one row at a time. -/
theorem maskRow_sum_eq_countP (row : List ℤ) :
    ((row.map (fun t => if t = 0 then (0 : ℝ) else 1)).sum)
      = (row.countP (fun t => decide (t ≠ 0)) : ℝ) := by
  induction row with
  | nil => simp
  | cons t row ih =>
    by_cases h : t = 0 <;>
      simp [List.countP_cons, h, ih, add_comm]

/-- The mask sum computed by `_calculate_loss` equals the non-padding
position count of the whole batch. -/
theorem lossMask_sum_eq_numNonPadded (real : List (List ℤ)) :
    sum2 (lossMask real) = (numNonPadded real : ℝ) := by
  induction real with
  | nil => simp [sum2, lossMask, numNonPadded]
  | cons row rest ih =>
    simp only [sum2, lossMask, numNonPadded, List.map_cons, List.sum_cons] at *
    rw [maskRow_sum_eq_countP, ih]
    push_cast
    ring

/-- One row of the masked loss sum equals the filtered sum over
non-padding positions of that row. -/
theorem maskedRow_eq_filtered (r : List ℤ) (p : List (List ℝ)) :
    (List.zipWith (· * ·)
        (List.zipWith (fun t logits => sparseCE logits t) r p)
        (r.map (fun t => if t = 0 then (0 : ℝ) else 1))).sum
      = (((r.zip p).filter (fun q => decide (q.1 ≠ 0))).map
          (fun q => sparseCE q.2 q.1)).sum := by
  induction r generalizing p with
  | nil => simp
  | cons t r ih =>
    cases p with
    | nil => simp
    | cons logits p =>
      by_cases h : t = 0 <;>
        simp [List.zip_cons_cons, List.filter_cons, h, ih]

/-- The masked loss total of `_calculate_loss` equals the sum of
cross-entropies over non-padding positions only. -/
theorem masked_total_eq_filtered
    (real : List (List ℤ)) (pred : List (List (List ℝ))) :
    sum2 (List.zipWith (List.zipWith (· * ·))
        (sparse_categorical_crossentropy real pred) (lossMask real))
      = (List.zipWith (fun rrow prow =>
          ((((rrow.zip prow).filter (fun q => decide (q.1 ≠ 0))).map
            (fun q => sparseCE q.2 q.1)).sum)) real pred).sum := by
  induction real generalizing pred with
  | nil => simp [sum2, sparse_categorical_crossentropy, lossMask]
  | cons rrow rest ih =>
    cases pred with
    | nil => simp [sum2, sparse_categorical_crossentropy, lossMask]
    | cons prow pred =>
      simp only [sum2, sparse_categorical_crossentropy, lossMask,
        List.map_cons, List.zipWith_cons_cons, List.sum_cons] at *
      rw [maskedRow_eq_filtered, ih]

/-- C1: with at least one non-padding position, `_calculate_loss` returns
exactly the specification's masked average: the cross-entropy summed over
non-padding positions divided by the number of non-padding positions. -/
theorem calculate_loss_eq_spec
    (real : List (List ℤ)) (pred : List (List (List ℝ)))
    (h : 0 < numNonPadded real) :
    calculate_loss real pred = some (maskedLossSpec real pred) := by
  have hmask : sum2 (lossMask real) = (numNonPadded real : ℝ) :=
    lossMask_sum_eq_numNonPadded real
  have hne : sum2 (lossMask real) ≠ 0 := by
    rw [hmask]
    exact_mod_cast Nat.pos_iff_ne_zero.mp h
  unfold calculate_loss
  simp only [hne, if_neg, if_false]
  rw [masked_total_eq_filtered, hmask]
  rfl

/-- Witness for C1 at a concrete batch with one non-padding position. -/
theorem calculate_loss_eq_spec_witness :
    calculate_loss [[1, 0]] [[[0, 1], [2, 3]]]
      = some (maskedLossSpec [[1, 0]] [[[0, 1], [2, 3]]]) :=
  calculate_loss_eq_spec [[1, 0]] [[[0, 1], [2, 3]]] (by decide)

/-- An all-padding target batch has an all-zero mask. -/
theorem lossMask_sum_zero_of_all_pad (real : List (List ℤ))
    (h : ∀ row ∈ real, ∀ t ∈ row, t = 0) :
    sum2 (lossMask real) = 0 := by
  rw [lossMask_sum_eq_numNonPadded]
  have : numNonPadded real = 0 := by
    unfold numNonPadded
    rw [List.sum_eq_zero]
    intro n hn
    rcases List.mem_map.mp hn with ⟨row, hrow, rfl⟩
    rw [List.countP_eq_zero]
    intro t ht
    simpa using h row hrow t ht
  rw [this]
  norm_num

/-- C2 counterexample: on the all-padding target batch `[[0, 0]]`,
`_calculate_loss` silently evaluates `0 / 0`, the non-finite value NaN
(`none` in the model); no error is raised and no error path exists. -/
theorem calculate_loss_all_pad_counterexample :
    calculate_loss [[0, 0]] [[[0, 1], [2, 3]]] = none := by
  unfold calculate_loss
  simp [lossMask, sum2]

/-- C2 amended: for every fully padded target batch (all tokens equal to
the padding id `0`) and every prediction tensor, `_calculate_loss`
divides zero by zero and returns the non-finite value NaN without
raising or reporting any error. -/
theorem calculate_loss_all_pad_nan
    (real : List (List ℤ)) (pred : List (List (List ℝ)))
    (h : ∀ row ∈ real, ∀ t ∈ row, t = 0) :
    calculate_loss real pred = none := by
  unfold calculate_loss
  simp only [lossMask_sum_zero_of_all_pad real h, if_pos]

/-- Witness for the amended C2 at a concrete all-padding batch. -/
theorem calculate_loss_all_pad_nan_witness :
    calculate_loss [[0], [0, 0]] [[[1]], [[2], [3]]] = none :=
  calculate_loss_all_pad_nan [[0], [0, 0]] [[[1]], [[2], [3]]] (by decide)

/-- Noninterference of one row: two logits rows that agree at every
non-padding position produce the same masked loss sum. -/
theorem maskedRow_noninterference (r : List ℤ) (p q : List (List ℝ))
    (hlen : p.length = q.length)
    (hagree : ∀ j, j < p.length → r.getD j 0 ≠ 0 → p.getD j [] = q.getD j []) :
    (List.zipWith (· * ·)
        (List.zipWith (fun t logits => sparseCE logits t) r p)
        (r.map (fun t => if t = 0 then (0 : ℝ) else 1))).sum
      = (List.zipWith (· * ·)
          (List.zipWith (fun t logits => sparseCE logits t) r q)
          (r.map (fun t => if t = 0 then (0 : ℝ) else 1))).sum := by
  induction r generalizing p q with
  | nil => simp
  | cons t r ih =>
    cases p with
    | nil =>
      cases q with
      | nil => rfl
      | cons ql q => simp at hlen
    | cons pl p =>
      cases q with
      | nil => simp at hlen
      | cons ql q =>
        simp only [List.length_cons, Nat.succ.injEq] at hlen
        have htail : (List.zipWith (· * ·)
            (List.zipWith (fun t logits => sparseCE logits t) r p)
            (r.map (fun t => if t = 0 then (0 : ℝ) else 1))).sum
          = (List.zipWith (· * ·)
              (List.zipWith (fun t logits => sparseCE logits t) r q)
              (r.map (fun t => if t = 0 then (0 : ℝ) else 1))).sum := by
          refine ih p q hlen ?_
          intro j hj hne
          have := hagree (j + 1) (by simpa using Nat.succ_lt_succ hj)
          simpa using this (by simpa using hne)
        by_cases h : t = 0
        · simp [h, htail]
        · have hhead : pl = ql := by
            have := hagree 0 (by simp) (by simpa using h)
            simpa using this
          simp [h, hhead, htail]

/-- C9: prediction values at padding positions never influence the loss:
two prediction tensors of the same shape that agree at every position
where the target token is non-zero give `_calculate_loss` the same
value. -/
theorem calculate_loss_noninterference
    (real : List (List ℤ)) (pred₁ pred₂ : List (List (List ℝ)))
    (hlen : pred₁.length = pred₂.length)
    (hrow : ∀ i, i < pred₁.length →
      (pred₁.getD i []).length = (pred₂.getD i []).length)
    (hagree : ∀ i, i < pred₁.length → ∀ j, j < (pred₁.getD i []).length →
      (real.getD i []).getD j 0 ≠ 0 →
      (pred₁.getD i []).getD j [] = (pred₂.getD i []).getD j []) :
    calculate_loss real pred₁ = calculate_loss real pred₂ := by
  have hnum : sum2 (List.zipWith (List.zipWith (· * ·))
      (sparse_categorical_crossentropy real pred₁) (lossMask real))
    = sum2 (List.zipWith (List.zipWith (· * ·))
      (sparse_categorical_crossentropy real pred₂) (lossMask real)) := by
    induction real generalizing pred₁ pred₂ with
    | nil => simp [sparse_categorical_crossentropy, lossMask]
    | cons rrow rest ih =>
      cases pred₁ with
      | nil =>
        cases pred₂ with
        | nil => rfl
        | cons prow₂ pred₂ => simp at hlen
      | cons prow₁ pred₁ =>
        cases pred₂ with
        | nil => simp at hlen
        | cons prow₂ pred₂ =>
          simp only [List.length_cons, Nat.succ.injEq] at hlen
          simp only [sparse_categorical_crossentropy, lossMask,
            List.map_cons, List.zipWith_cons_cons, sum2, List.sum_cons]
          have hhead := maskedRow_noninterference rrow prow₁ prow₂
            (by simpa using hrow 0 (by simp))
            (by
              intro j hj hne
              have := hagree 0 (by simp) j (by simpa using hj)
              simpa using this (by simpa using hne))
          have htail : sum2 (List.zipWith (List.zipWith (· * ·))
              (sparse_categorical_crossentropy rest pred₁) (lossMask rest))
            = sum2 (List.zipWith (List.zipWith (· * ·))
              (sparse_categorical_crossentropy rest pred₂) (lossMask rest)) := by
            refine ih pred₁ pred₂ hlen ?_ ?_
            · intro i hi
              have := hrow (i + 1) (by simpa using Nat.succ_lt_succ hi)
              simpa using this
            · intro i hi j hj hne
              have := hagree (i + 1) (by simpa using Nat.succ_lt_succ hi) j
                (by simpa using hj) (by simpa using hne)
              simpa using this
          simp only [sum2, sparse_categorical_crossentropy, lossMask] at hhead htail ⊢
          rw [hhead, htail]
  unfold calculate_loss
  simp only [hnum]

/-- Witness for C9: the two prediction tensors differ only at the padding
position (second token, where the target is `0`) and yield one loss. -/
theorem calculate_loss_noninterference_witness :
    calculate_loss [[1, 0]] [[[0, 1], [2, 3]]]
      = calculate_loss [[1, 0]] [[[0, 1], [7, 9]]] :=
  calculate_loss_noninterference [[1, 0]] [[[0, 1], [2, 3]]] [[[0, 1], [7, 9]]]
    (by decide) (by decide)
    (by
      intro i hi j hj hne
      have hi1 : i < 1 := by simpa using hi
      interval_cases i
      have hj2 : j < 2 := by simpa using hj
      interval_cases j
      · rfl
      · simp at hne)

/-- Softmax cross-entropy from logits is non-negative whenever the label
indexes a logit: the label's probability is at most one. -/
theorem sparseCE_nonneg (logits : List ℝ) (label : ℤ)
    (h : label.toNat < logits.length) : 0 ≤ sparseCE logits label := by
  have hmem : logits.getD label.toNat 0 ∈ logits := by
    rw [List.getD_eq_getElem logits 0 h]
    exact List.getElem_mem h
  have hexp : Real.exp (logits.getD label.toNat 0) ∈ logits.map Real.exp :=
    List.mem_map_of_mem _ hmem
  have hle : Real.exp (logits.getD label.toNat 0) ≤ (logits.map Real.exp).sum := by
    refine List.single_le_sum ?_ _ hexp
    intro y hy
    rcases List.mem_map.mp hy with ⟨z, _, rfl⟩
    exact (Real.exp_pos z).le
  have hlog := Real.log_le_log (Real.exp_pos _) hle
  rw [Real.log_exp] at hlog
  unfold sparseCE
  linarith

/-- One row of the masked loss is a sum of non-negative terms when every
non-padding label of the row indexes into its logits row. -/
theorem maskedRow_nonneg (r : List ℤ) (p : List (List ℝ))
    (hvalid : ∀ j, j < r.length → r.getD j 0 ≠ 0 →
      (r.getD j 0).toNat < (p.getD j []).length) :
    0 ≤ (List.zipWith (· * ·)
        (List.zipWith (fun t logits => sparseCE logits t) r p)
        (r.map (fun t => if t = 0 then (0 : ℝ) else 1))).sum := by
  induction r generalizing p with
  | nil => simp
  | cons t r ih =>
    cases p with
    | nil => simp
    | cons logits p =>
      have htail : 0 ≤ (List.zipWith (· * ·)
          (List.zipWith (fun t logits => sparseCE logits t) r p)
          (r.map (fun t => if t = 0 then (0 : ℝ) else 1))).sum := by
        refine ih p ?_
        intro j hj hne
        have := hvalid (j + 1) (by simpa using Nat.succ_lt_succ hj)
          (by simpa using hne)
        simpa using this
      by_cases h : t = 0
      · simpa [h] using htail
      · have hv := hvalid 0 (by simp) (by simpa using h)
        have hce : 0 ≤ sparseCE logits t :=
          sparseCE_nonneg logits t (by simpa using hv)
        simp only [List.zipWith_cons_cons, List.map_cons, List.sum_cons,
          if_neg h, mul_one]
        exact add_nonneg hce htail

/-- The whole masked loss total is non-negative when every non-padding
label indexes into its logits row. -/
theorem masked_total_nonneg
    (real : List (List ℤ)) (pred : List (List (List ℝ)))
    (hvalid : ∀ i, i < real.length → ∀ j, j < (real.getD i []).length →
      (real.getD i []).getD j 0 ≠ 0 →
      ((real.getD i []).getD j 0).toNat
        < ((pred.getD i []).getD j []).length) :
    0 ≤ sum2 (List.zipWith (List.zipWith (· * ·))
        (sparse_categorical_crossentropy real pred) (lossMask real)) := by
  induction real generalizing pred with
  | nil => simp [sum2, sparse_categorical_crossentropy, lossMask]
  | cons rrow rest ih =>
    cases pred with
    | nil => simp [sum2, sparse_categorical_crossentropy, lossMask]
    | cons prow pred =>
      have hhead : 0 ≤ (List.zipWith (· * ·)
          (List.zipWith (fun t logits => sparseCE logits t) rrow prow)
          (rrow.map (fun t => if t = 0 then (0 : ℝ) else 1))).sum := by
        refine maskedRow_nonneg rrow prow ?_
        intro j hj hne
        have := hvalid 0 (by simp) j (by simpa using hj) (by simpa using hne)
        simpa using this
      have htail : 0 ≤ sum2 (List.zipWith (List.zipWith (· * ·))
          (sparse_categorical_crossentropy rest pred) (lossMask rest)) := by
        refine ih pred ?_
        intro i hi j hj hne
        have := hvalid (i + 1) (by simpa using Nat.succ_lt_succ hi) j
          (by simpa using hj) (by simpa using hne)
        simpa using this
      simp only [sparse_categorical_crossentropy, lossMask, List.map_cons,
        List.zipWith_cons_cons, sum2, List.sum_cons] at htail ⊢
      exact add_nonneg hhead htail

/-- C5: for every batch with at least one non-padded target position
(and labels that index into the prediction's vocabulary axis),
`_calculate_loss` returns a value (finite: no NaN/Inf), and that value
is non-negative. -/
theorem calculate_loss_finite_nonneg
    (real : List (List ℤ)) (pred : List (List (List ℝ)))
    (hpos : 0 < numNonPadded real)
    (hvalid : ∀ i, i < real.length → ∀ j, j < (real.getD i []).length →
      (real.getD i []).getD j 0 ≠ 0 →
      ((real.getD i []).getD j 0).toNat
        < ((pred.getD i []).getD j []).length) :
    ∃ v, calculate_loss real pred = some v ∧ 0 ≤ v := by
  have hmask : sum2 (lossMask real) = (numNonPadded real : ℝ) :=
    lossMask_sum_eq_numNonPadded real
  have hden : (0 : ℝ) < sum2 (lossMask real) := by
    rw [hmask]
    exact_mod_cast hpos
  refine ⟨sum2 (List.zipWith (List.zipWith (· * ·))
      (sparse_categorical_crossentropy real pred) (lossMask real))
    / sum2 (lossMask real), ?_, ?_⟩
  · unfold calculate_loss
    simp only [if_neg (ne_of_gt hden)]
  · exact div_nonneg (masked_total_nonneg real pred hvalid) hden.le

/-- Witness for C5 at a concrete one-position batch. -/
theorem calculate_loss_finite_nonneg_witness :
    ∃ v, calculate_loss [[1]] [[[5, 7]]] = some v ∧ 0 ≤ v :=
  calculate_loss_finite_nonneg [[1]] [[[5, 7]]] (by decide) (by decide)

/-- `_right_pad_sequence_once` of `train.py`:
`tf.pad(sequence, [[0, 0], [0, 1]], "CONSTANT")` appends a single `0`
at the end of every row and pads nothing elsewhere. -/
def right_pad_sequence_once (sequence : List (List ℤ)) : List (List ℤ) :=
  sequence.map (fun row => row ++ [0])

/-- `target_input` of `_train_step`:
`_right_pad_sequence_once(target[:, :-1])`. -/
def target_input_of (target : List (List ℤ)) : List (List ℤ) :=
  right_pad_sequence_once (target.map (fun row => row.dropLast))

/-- `target_real` of `_train_step`:
`_right_pad_sequence_once(target[:, 1:])`. -/
def target_real_of (target : List (List ℤ)) : List (List ℤ) :=
  right_pad_sequence_once (target.map (fun row => row.tail))

/-- C3: the decoder input is the target with its last token dropped, the
decoder expected output is the target with its first token dropped, both
right-padded with exactly one `0`, restoring each row's original length;
and `_right_pad_sequence_once` keeps every existing entry and appends a
single trailing `0` per row. -/
theorem train_step_shift_and_pad (target : List (List ℤ))
    (h : ∀ row ∈ target, row ≠ []) :
    target_input_of target = target.map (fun row => row.dropLast ++ [0])
    ∧ target_real_of target = target.map (fun row => row.tail ++ [0])
    ∧ (∀ i, i < target.length →
        ((target_input_of target).getD i []).length
            = (target.getD i []).length
        ∧ ((target_real_of target).getD i []).length
            = (target.getD i []).length)
    ∧ (∀ s : List (List ℤ),
        right_pad_sequence_once s = s.map (fun row => row ++ [0])) := by
  refine ⟨?_, ?_, ?_, fun s => rfl⟩
  · unfold target_input_of right_pad_sequence_once
    rw [List.map_map]
    rfl
  · unfold target_real_of right_pad_sequence_once
    rw [List.map_map]
    rfl
  · intro i hi
    have hmem : target.getD i [] ∈ target := by
      rw [List.getD_eq_getElem target [] hi]
      exact List.getElem_mem hi
    have hne := h _ hmem
    have hlen : 1 ≤ (target.getD i []).length := List.length_pos.mpr hne
    constructor
    · have hgi : (target_input_of target).getD i []
          = (target.getD i []).dropLast ++ [0] := by
        unfold target_input_of right_pad_sequence_once
        rw [List.map_map,
          List.getD_eq_getElem _ [] (by simpa using hi),
          List.getElem_map, List.getD_eq_getElem target [] hi]
        rfl
      rw [hgi]
      simp only [List.length_append, List.length_dropLast,
        List.length_singleton]
      omega
    · have hgr : (target_real_of target).getD i []
          = (target.getD i []).tail ++ [0] := by
        unfold target_real_of right_pad_sequence_once
        rw [List.map_map,
          List.getD_eq_getElem _ [] (by simpa using hi),
          List.getElem_map, List.getD_eq_getElem target [] hi]
        rfl
      rw [hgr]
      simp only [List.length_append, List.length_tail,
        List.length_singleton]
      omega

/-- Witness for C3 at a concrete two-row batch. -/
theorem train_step_shift_and_pad_witness :
    target_input_of [[5, 6, 7], [8, 9]]
        = [[5, 6, 7], [8, 9]].map (fun row => row.dropLast ++ [0])
    ∧ target_real_of [[5, 6, 7], [8, 9]]
        = [[5, 6, 7], [8, 9]].map (fun row => row.tail ++ [0])
    ∧ (∀ i, i < ([[5, 6, 7], [8, 9]] : List (List ℤ)).length →
        ((target_input_of [[5, 6, 7], [8, 9]]).getD i []).length
            = (([[5, 6, 7], [8, 9]] : List (List ℤ)).getD i []).length
        ∧ ((target_real_of [[5, 6, 7], [8, 9]]).getD i []).length
            = (([[5, 6, 7], [8, 9]] : List (List ℤ)).getD i []).length)
    ∧ (∀ s : List (List ℤ),
        right_pad_sequence_once s = s.map (fun row => row ++ [0])) :=
  train_step_shift_and_pad [[5, 6, 7], [8, 9]] (by decide)

/-- `_train_step` of `train.py`, as the loss it computes and returns: the
forward pass `transformer(input, target_input, True, None, None, None)`
followed by `_calculate_loss(target_real, predictions)`.  The gradient
update mutates external optimizer state and does not affect the returned
loss value.  The transformer is a parameter: a function of the encoder
input, the decoder input, the training flag and the three optional masks
(encoder padding mask, look-ahead mask, decoder padding mask). -/
noncomputable def train_step {μ : Type}
    (transformer : List (List ℤ) → List (List ℤ) → Bool →
      Option μ → Option μ → Option μ → List (List (List ℝ)))
    (input target : List (List ℤ)) : Option ℝ :=
  let target_input := target_input_of target
  let target_real := target_real_of target
  let predictions := transformer input target_input true none none none
  calculate_loss target_real predictions

/-- C4: `_train_step` invokes the transformer with the training flag
`True` and all three mask arguments `None`: its result is exactly the
loss of that call, and any two transformer functions that agree on
training mode with no masks give identical training-step results,
however much they differ when a mask is supplied or training is off. -/
theorem train_step_no_masks {μ : Type}
    (f g : List (List ℤ) → List (List ℤ) → Bool →
      Option μ → Option μ → Option μ → List (List (List ℝ)))
    (input target : List (List ℤ))
    (h : ∀ i ti, f i ti true none none none = g i ti true none none none) :
    train_step f input target
        = calculate_loss (target_real_of target)
            (f input (target_input_of target) true none none none)
    ∧ train_step f input target = train_step g input target := by
  refine ⟨rfl, ?_⟩
  unfold train_step
  simp only [h]

/-- Witness for C4: a transformer ignoring everything versus one that
changes output when the training flag is off; the training step cannot
tell them apart. -/
theorem train_step_no_masks_witness :
    train_step (μ := Unit) (fun _ _ _ _ _ _ => [[[1]]]) [[1]] [[1, 2]]
        = calculate_loss (target_real_of [[1, 2]])
            ((fun (_ : List (List ℤ)) (_ : List (List ℤ)) (_ : Bool)
                (_ : Option Unit) (_ : Option Unit) (_ : Option Unit) =>
              ([[[1]]] : List (List (List ℝ)))) [[1]]
              (target_input_of [[1, 2]]) true none none none)
    ∧ train_step (μ := Unit) (fun _ _ _ _ _ _ => [[[1]]]) [[1]] [[1, 2]]
        = train_step (μ := Unit)
            (fun _ _ training _ _ _ =>
              if training then [[[1]]] else [[[2]]]) [[1]] [[1, 2]] :=
  train_step_no_masks (fun _ _ _ _ _ _ => [[[1]]])
    (fun _ _ training _ _ _ => if training then [[[1]]] else [[[2]]])
    [[1]] [[1, 2]] (fun _ _ => rfl)

/-- A durable-storage write performed by the training pipeline: a
per-epoch checkpoint directory (`transformer.save_weights` inside the
epoch loop) or the final save of the parameter state (after `train`
returns, in `__main__`). -/
inductive TrainEvent (σ : Type) where
  | ckpt (dir : String) (state : σ)
  | finalSave (state : σ)
deriving DecidableEq

/-- The checkpoint directory written at the end of epoch `e`:
`os.path.join("/content/models", f"epoch_\x7bepoch\x7d/")`. -/
def checkpointDir (e : ℕ) : String :=
  "/content/models/epoch_" ++ toString e ++ "/"

/-- The inner batch loop of `train`: starting from model/optimizer state
`s` and accumulated loss `acc`, run `_train_step` (abstracted as `step`)
on each batch in order, adding each batch loss to the accumulator
(`total_loss += batch_loss`). -/
def runEpochBatches {σ β α : Type} (step : σ → β → σ × α)
    (add : α → α → α) : σ → α → List β → σ × α
  | s, acc, [] => (s, acc)
  | s, acc, b :: bs =>
      runEpochBatches step add (step s b).1 (add acc (step s b).2) bs

/-- The state after one full epoch of batches. -/
def epochNext {σ β α : Type} (step : σ → β → σ × α) (add : α → α → α)
    (zero : α) (batches : List β) (s : σ) : σ :=
  (runEpochBatches step add s zero batches).1

/-- The accumulated loss total of one epoch started in state `s`. -/
def epochTotal {σ β α : Type} (step : σ → β → σ × α) (add : α → α → α)
    (zero : α) (batches : List β) (s : σ) : α :=
  (runEpochBatches step add s zero batches).2

/-- The epoch loop of `train`, from `n` remaining epochs with current
epoch index `e` and state `s`.  Each epoch runs every batch, appends the
epoch's loss total to `losses`, then writes the checkpoint
`epoch_<e>`; `saveRes e` is the outcome of that `save_weights` call
(`none` = success).  A failed write raises, so the loop stops there with
the exception.  Returns the `losses` list, the trace of storage writes,
and either the final state or the uncaught exception. -/
def trainFrom {σ β α ε : Type} (step : σ → β → σ × α) (add : α → α → α)
    (zero : α) (saveRes : ℕ → Option ε) (batches : List β) :
    ℕ → ℕ → σ → List α × List (TrainEvent σ) × Except ε σ
  | 0, _, s => ([], [], .ok s)
  | n + 1, e, s =>
    let s' := epochNext step add zero batches s
    let total := epochTotal step add zero batches s
    match saveRes e with
    | some err => ([total], [], .error err)
    | none =>
      let q := trainFrom step add zero saveRes batches n (e + 1) s'
      (total :: q.1, .ckpt (checkpointDir e) s' :: q.2.1, q.2.2)

/-- `train(train_dataset, transformer, epochs)` of `train.py`: the epoch
loop from epoch index `0`. -/
def train {σ β α ε : Type} (step : σ → β → σ × α) (add : α → α → α)
    (zero : α) (saveRes : ℕ → Option ε) (batches : List β)
    (epochs : ℕ) (s : σ) : List α × List (TrainEvent σ) × Except ε σ :=
  trainFrom step add zero saveRes batches epochs 0 s

/-- The `__main__` flow around `train`: run the training loop, then save
the final parameter state once more
(`transformer_model.save_weights("/content/weigths/")`).  An exception
escaping `train` skips that final save. -/
def mainRun {σ β α ε : Type} (step : σ → β → σ × α) (add : α → α → α)
    (zero : α) (saveRes : ℕ → Option ε) (batches : List β)
    (epochs : ℕ) (s : σ) : List α × List (TrainEvent σ) × Except ε σ :=
  let r := train step add zero saveRes batches epochs s
  match r.2.2 with
  | .error err => (r.1, r.2.1, .error err)
  | .ok sF => (r.1, r.2.1 ++ [.finalSave sF], .ok sF)

/-- Unfolding the epoch loop when every checkpoint write from epoch `e`
on succeeds: one loss total and one `epoch_<e+i>` checkpoint per epoch,
in order, ending in the `n`-times-iterated state. -/
theorem trainFrom_all_saves_ok {σ β α ε : Type} (step : σ → β → σ × α)
    (add : α → α → α) (zero : α) (saveRes : ℕ → Option ε)
    (batches : List β) (n e : ℕ) (s : σ)
    (h : ∀ i, i < n → saveRes (e + i) = none) :
    trainFrom step add zero saveRes batches n e s
      = ((List.range n).map (fun i => epochTotal step add zero batches
            ((epochNext step add zero batches)^[i] s)),
         (List.range n).map (fun i => TrainEvent.ckpt (checkpointDir (e + i))
            ((epochNext step add zero batches)^[i + 1] s)),
         .ok ((epochNext step add zero batches)^[n] s)) := by
  induction n generalizing e s with
  | zero => simp [trainFrom]
  | succ n ih =>
    have h0 : saveRes e = none := by simpa using h 0 (Nat.succ_pos n)
    have hrec := ih (e + 1) (epochNext step add zero batches s)
      (fun i hi => by
        have := h (i + 1) (Nat.succ_lt_succ hi)
        simpa [Nat.add_assoc, Nat.add_comm 1 i] using this)
    simp only [trainFrom, h0, hrec, List.range_succ_eq_map, List.map_cons,
      List.map_map]
    simp [Function.comp, Function.iterate_succ_apply, Nat.add_assoc,
      Nat.add_comm 1]

/-- C6: with every checkpoint write succeeding, the run iterates epochs
`0..epochs-1`, records one accumulated loss total per epoch, writes the
end-of-epoch parameter state exactly once per epoch to the directory
`epoch_<N>`, and after all epochs persists the final parameter state
once more. -/
theorem train_epoch_checkpoints {σ β α ε : Type} (step : σ → β → σ × α)
    (add : α → α → α) (zero : α) (saveRes : ℕ → Option ε)
    (batches : List β) (epochs : ℕ) (s : σ)
    (hsave : ∀ n, n < epochs → saveRes n = none) :
    mainRun step add zero saveRes batches epochs s
      = ((List.range epochs).map (fun n => epochTotal step add zero batches
            ((epochNext step add zero batches)^[n] s)),
         (List.range epochs).map (fun n =>
            TrainEvent.ckpt (checkpointDir n)
              ((epochNext step add zero batches)^[n + 1] s))
           ++ [TrainEvent.finalSave ((epochNext step add zero batches)^[epochs] s)],
         .ok ((epochNext step add zero batches)^[epochs] s)) := by
  unfold mainRun train
  rw [trainFrom_all_saves_ok step add zero saveRes batches epochs 0 s
    (fun i hi => by simpa using hsave i hi)]
  simp

/-- Witness for C6: two epochs over batches `[1, 2]` with an additive
loss; the trace is `epoch_0`, `epoch_1`, then the final save. -/
theorem train_epoch_checkpoints_witness :
    mainRun (fun (s b : ℕ) => (s + b, (b : ℤ))) (· + ·) 0
        (fun _ => (none : Option Unit)) [1, 2] 2 0
      = ((List.range 2).map (fun n =>
            epochTotal (fun (s b : ℕ) => (s + b, (b : ℤ))) (· + ·) 0 [1, 2]
              ((epochNext (fun (s b : ℕ) => (s + b, (b : ℤ)))
                (· + ·) 0 [1, 2])^[n] 0)),
         (List.range 2).map (fun n =>
            TrainEvent.ckpt (checkpointDir n)
              ((epochNext (fun (s b : ℕ) => (s + b, (b : ℤ)))
                (· + ·) 0 [1, 2])^[n + 1] 0))
           ++ [TrainEvent.finalSave
                ((epochNext (fun (s b : ℕ) => (s + b, (b : ℤ)))
                  (· + ·) 0 [1, 2])^[2] 0)],
         .ok ((epochNext (fun (s b : ℕ) => (s + b, (b : ℤ)))
            (· + ·) 0 [1, 2])^[2] 0)) :=
  train_epoch_checkpoints (fun (s b : ℕ) => (s + b, (b : ℤ))) (· + ·) 0
    (fun _ => (none : Option Unit)) [1, 2] 2 0 (fun _ _ => rfl)

/-- Unfolding the epoch loop up to the first failing checkpoint write:
epochs before it complete normally, the failing epoch still runs its
batches and records its total, and the loop stops there with the error;
its checkpoint is not written. -/
theorem trainFrom_first_save_fails {σ β α ε : Type} (step : σ → β → σ × α)
    (add : α → α → α) (zero : α) (saveRes : ℕ → Option ε)
    (batches : List β) (k : ℕ) (err : ε) :
    ∀ (n e : ℕ) (s : σ), k < n →
    (∀ i, i < k → saveRes (e + i) = none) →
    saveRes (e + k) = some err →
    trainFrom step add zero saveRes batches n e s
      = ((List.range (k + 1)).map (fun i => epochTotal step add zero batches
            ((epochNext step add zero batches)^[i] s)),
         (List.range k).map (fun i =>
            TrainEvent.ckpt (checkpointDir (e + i))
              ((epochNext step add zero batches)^[i + 1] s)),
         .error err) := by
  induction k with
  | zero =>
    intro n e s hk hpre hfail
    cases n with
    | zero => omega
    | succ n =>
      have h0 : saveRes e = some err := by simpa using hfail
      simp [trainFrom, h0, List.range_succ, List.range_zero]
  | succ k ih =>
    intro n e s hk hpre hfail
    cases n with
    | zero => omega
    | succ n =>
      have h0 : saveRes e = none := by simpa using hpre 0 (Nat.succ_pos k)
      have hrec := ih n (e + 1) (epochNext step add zero batches s)
        (by omega)
        (fun i hi => by
          have he : e + 1 + i = e + (i + 1) := by omega
          rw [he]
          exact hpre (i + 1) (Nat.succ_lt_succ hi))
        (by
          have he : e + 1 + k = e + (k + 1) := by omega
          rw [he]
          exact hfail)
      simp only [trainFrom, h0, hrec, List.range_succ_eq_map, List.map_cons,
        List.map_map]
      simp [Function.comp, Function.iterate_succ_apply, Nat.add_assoc,
        Nat.add_comm 1]

/-- C7 counterexample: storage fails only for the `epoch_0` write
(`saveRes 1 = none`, so storage is not fully unavailable), yet the whole
run terminates with the error: no checkpoint, no final save, no retry,
and epoch `1` never happens. -/
theorem mainRun_transient_failure_counterexample :
    mainRun (fun (s b : ℕ) => (s + b, (b : ℤ))) (· + ·) 0
        (fun n => if n = 0 then some () else none) [1] 2 0
      = ([1], [], .error ())
    ∧ (fun n => if n = 0 then some () else none) 1 = (none : Option Unit) := by
  constructor
  · rfl
  · rfl

/-- C7 amended: when the checkpoint write of epoch `e₀ < epochs` fails
(all earlier writes succeeding), the exception propagates out of `train`
and terminates the run at once: losses stop at epoch `e₀`, only the
checkpoints of epochs before `e₀` exist, there is no retry, no further
epoch, and no final save. -/
theorem mainRun_save_failure_aborts {σ β α ε : Type} (step : σ → β → σ × α)
    (add : α → α → α) (zero : α) (saveRes : ℕ → Option ε)
    (batches : List β) (epochs : ℕ) (s : σ) (e₀ : ℕ) (err : ε)
    (hk : e₀ < epochs)
    (hpre : ∀ i, i < e₀ → saveRes i = none)
    (hfail : saveRes e₀ = some err) :
    mainRun step add zero saveRes batches epochs s
      = ((List.range (e₀ + 1)).map (fun n => epochTotal step add zero batches
            ((epochNext step add zero batches)^[n] s)),
         (List.range e₀).map (fun n =>
            TrainEvent.ckpt (checkpointDir n)
              ((epochNext step add zero batches)^[n + 1] s)),
         .error err) := by
  unfold mainRun train
  rw [trainFrom_first_save_fails step add zero saveRes batches e₀ err epochs 0 s
    hk (fun i hi => by simpa using hpre i hi) (by simpa using hfail)]
  simp

/-- Witness for the amended C7: failure at epoch `0` of a two-epoch run
aborts everything. -/
theorem mainRun_save_failure_aborts_witness :
    mainRun (fun (s b : ℕ) => (s + b, (b : ℤ))) (· + ·) 0
        (fun n => if n = 0 then some () else none) [1] 2 0
      = ((List.range 1).map (fun n =>
            epochTotal (fun (s b : ℕ) => (s + b, (b : ℤ))) (· + ·) 0 [1]
              ((epochNext (fun (s b : ℕ) => (s + b, (b : ℤ)))
                (· + ·) 0 [1])^[n] 0)),
         (List.range 0).map (fun n =>
            TrainEvent.ckpt (checkpointDir n)
              ((epochNext (fun (s b : ℕ) => (s + b, (b : ℤ)))
                (· + ·) 0 [1])^[n + 1] 0)),
         .error ()) :=
  mainRun_save_failure_aborts (fun (s b : ℕ) => (s + b, (b : ℤ))) (· + ·) 0
    (fun n => if n = 0 then some () else none) [1] 2 0 0 ()
    (by decide) (fun i hi => absurd hi (Nat.not_lt_zero i)) rfl

/-- Floating-point addition with a non-finite operand (NaN, modelled as
`none`) produces a non-finite result: `total_loss += batch_loss`
propagates NaN through the epoch total. -/
def addNaN {γ : Type} [Add γ] : Option γ → Option γ → Option γ :=
  fun a b => a.bind (fun x => b.map (fun y => x + y))

/-- C8 counterexample: a batch whose loss is NaN (`none`): the epoch
total becomes NaN, yet the epoch checkpoint is written and the run
finishes normally — there is no NaN/Inf detection anywhere in `train`. -/
theorem mainRun_nan_checkpoint_counterexample :
    (mainRun (fun (s : ℕ) (_ : ℕ) => (s, (none : Option ℤ))) addNaN (some 0)
        (fun _ => (none : Option Unit)) [0] 1 0).1 = [none]
    ∧ TrainEvent.ckpt (checkpointDir 0) 0
        ∈ (mainRun (fun (s : ℕ) (_ : ℕ) => (s, (none : Option ℤ))) addNaN
            (some 0) (fun _ => (none : Option Unit)) [0] 1 0).2.1
    ∧ (mainRun (fun (s : ℕ) (_ : ℕ) => (s, (none : Option ℤ))) addNaN
        (some 0) (fun _ => (none : Option Unit)) [0] 1 0).2.2 = .ok 0 := by
  refine ⟨rfl, ?_, rfl⟩
  left

/-- C8 amended: checkpoint writing is unconditional: whatever loss values
the steps produce — including NaN, as `α` may be an `Option` type with
NaN-propagating addition — every epoch `n < epochs` of a run with
working storage writes its `epoch_<n>` checkpoint. -/
theorem mainRun_checkpoints_regardless_of_loss {σ β α ε : Type}
    (step : σ → β → σ × α) (add : α → α → α) (zero : α)
    (saveRes : ℕ → Option ε) (batches : List β) (epochs : ℕ) (s : σ)
    (hsave : ∀ n, n < epochs → saveRes n = none)
    (n : ℕ) (hn : n < epochs) :
    TrainEvent.ckpt (checkpointDir n)
        ((epochNext step add zero batches)^[n + 1] s)
      ∈ (mainRun step add zero saveRes batches epochs s).2.1 := by
  unfold mainRun train
  rw [trainFrom_all_saves_ok step add zero saveRes batches epochs 0 s
    (fun i hi => by simpa using hsave i hi)]
  simp only [List.mem_append, Nat.zero_add]
  left
  exact List.mem_map_of_mem _ (List.mem_range.mpr hn)

/-- Witness for the amended C8: every batch loss is NaN, and the epoch
checkpoint is in the write trace anyway. -/
theorem mainRun_checkpoints_regardless_of_loss_witness :
    TrainEvent.ckpt (checkpointDir 0)
        ((epochNext (fun (s : ℕ) (_ : ℕ) => (s + 1, (none : Option ℤ)))
          addNaN (some 0) [0])^[0 + 1] 5)
      ∈ (mainRun (fun (s : ℕ) (_ : ℕ) => (s + 1, (none : Option ℤ)))
          addNaN (some 0) (fun _ => (none : Option Unit)) [0] 1 5).2.1 :=
  mainRun_checkpoints_regardless_of_loss
    (fun (s : ℕ) (_ : ℕ) => (s + 1, (none : Option ℤ))) addNaN (some 0)
    (fun _ => (none : Option Unit)) [0] 1 5 (fun _ _ => rfl) 0 (by decide)

/-- One top-level Python statement, abstracted to the names it reads (in
evaluation order), the names it binds, and the files it writes. -/
structure PyStmt where
  refs : List String
  binds : List String
  writes : List String
deriving DecidableEq

/-- Run a straight-line Python module: each statement first evaluates its
referenced names in order — the first one absent from the environment
raises `NameError`, ending execution — then performs its writes and
binds its targets.  Returns the files written and either success or the
uncaught `NameError`. -/
def runStmts : List PyStmt → List String → List String × Except String Unit
  | [], _ => ([], .ok ())
  | st :: rest, env =>
    match st.refs.find? (fun r => !(env.contains r)) with
    | some r => ([], .error ("NameError: name " ++ r ++ " is not defined"))
    | none =>
      let q := runStmts rest (env ++ st.binds)
      (st.writes ++ q.1, q.2)

/-- The built-in names available to `generate.py` before any statement. -/
def pyBuiltins : List String := ["print", "range", "open"]

/-- Top level of `Code/generate.py`, statement by statement: the four
imports, the three global assignments, the `Transformer(...)`
construction (whose keyword arguments read `vocab_size` twice and
`MAX_POSITIONS_IN_POSITIONAL_ENCODING` twice, in source order, binding
`transformer_model`), the `MelodyPreprocessor(...)` construction, and
the generation loop that writes `/content/melody_<i>.txt` for
`i = 0..9`. -/
def generate_py : List PyStmt :=
  [⟨[], ["tf"], []⟩,
   ⟨[], ["MelodyGenerator"], []⟩,
   ⟨[], ["MelodyPreprocessor"], []⟩,
   ⟨[], ["Transformer"], []⟩,
   ⟨[], ["BATCH_SIZE"], []⟩,
   ⟨[], ["DATA_PATH"], []⟩,
   ⟨[], ["N_MELODIES"], []⟩,
   ⟨["Transformer", "vocab_size", "vocab_size",
      "MAX_POSITIONS_IN_POSITIONAL_ENCODING",
      "MAX_POSITIONS_IN_POSITIONAL_ENCODING"], ["transformer_model"], []⟩,
   ⟨["MelodyPreprocessor", "DATA_PATH", "BATCH_SIZE"],
      ["melody_preprocessor"], []⟩,
   ⟨["range", "N_MELODIES", "print", "MelodyGenerator",
      "transformer_model", "melody_preprocessor", "open"],
      ["melody_generator", "start_sequence", "new_melody"],
      (List.range 10).map (fun i => "/content/melody_" ++ toString i ++ ".txt")⟩]

/-- C10: `generate.py` references `vocab_size` and
`MAX_POSITIONS_IN_POSITIONAL_ENCODING` but binds neither anywhere, so
running it raises `NameError` at the `Transformer(...)` construction —
`vocab_size` is the first undefined name evaluated — and the script
writes no melody file at all. -/
theorem generate_py_name_error :
    "vocab_size" ∈ (generate_py.map PyStmt.refs).flatten
    ∧ "MAX_POSITIONS_IN_POSITIONAL_ENCODING"
        ∈ (generate_py.map PyStmt.refs).flatten
    ∧ "vocab_size" ∉ (generate_py.map PyStmt.binds).flatten
    ∧ "MAX_POSITIONS_IN_POSITIONAL_ENCODING"
        ∉ (generate_py.map PyStmt.binds).flatten
    ∧ runStmts generate_py pyBuiltins
        = ([], .error "NameError: name vocab_size is not defined") := by
  refine ⟨?_, ?_, ?_, ?_, rfl⟩ <;> decide

end CumbiaGen
